import Mathlib

set_option maxRecDepth 100000
set_option maxHeartbeats 2000000

/-!
# Verification of the keybox-parser build-time extraction tool

Shallow embedding of `src/build.rs`: the PEM normalizer (`clean_pem_data`),
the streaming XML scanner (`read_ec_data_from_xml`), the base64 decoder
(the `base64::decode` entry point used by the code), the constant emitter
(`write_rust_constants` with its inner `write_bytes` helper), and the
orchestrator (`main`).

Strings are modelled by Lean `String` (in this Lean version a wrapper around
`List Char`); all the concrete data handled by the tool is ASCII, so one
`Char` stands for one byte. File-system effects are made explicit: the
manifest is an optional, already-parsed event stream, and the output file is
a string that the write step transforms.
-/

namespace KeyboxParser

/-- An XML attribute as seen by the scanner: local name and value
(models `xml::attribute::OwnedAttribute` restricted to the fields the
code reads). -/
structure XmlAttr where
  name : String
  value : String
deriving DecidableEq, Repr

/-- The structural events of the `xml-rs` pull parser that
`read_ec_data_from_xml` inspects; every event kind the code ignores via its
`_ => {}` arm is collapsed into `other`. -/
inductive XmlEvent where
  | startElement (name : String) (attributes : List XmlAttr)
  | endElement (name : String)
  | characters (text : String)
  | other
deriving DecidableEq, Repr

/-! ## PEM normalizer (`clean_pem_data`, src/build.rs lines 7-14) -/

/-- Prepend a character to the first line of a line list (helper for
`rustLinesChars`). -/
def consHead (c : Char) : List (List Char) → List (List Char)
  | [] => [[c]]
  | l :: ls => (c :: l) :: ls

/-- Rust `str::lines` at the character level: split at `"\n"` line endings,
where a `"\r\n"` sequence also ends a line (the carriage return is dropped),
and a final line ending produces no trailing empty line. -/
def rustLinesChars : List Char → List (List Char)
  | [] => []
  | c :: cs =>
    if c = '\n' then [] :: rustLinesChars cs
    else if c = '\r' then
      match cs with
      | '\n' :: cs₂ => [] :: rustLinesChars cs₂
      | cs₁ => consHead c (rustLinesChars cs₁)
    else consHead c (rustLinesChars cs)

/-- A line that the PEM normalizer discards: one starting with the literal
begin or end delimiter prefix (`line.starts_with` in the source). -/
def isDelimLine (l : List Char) : Bool :=
  List.isPrefixOf ("-----BEGIN".toList) l || List.isPrefixOf ("-----END".toList) l

/-- `clean_pem_data` (src/build.rs lines 7-14): split into lines, drop
delimiter lines, concatenate the rest with no separator. -/
def clean_pem_data (pem : String) : String :=
  String.mk (List.flatten ((rustLinesChars pem.toList).filter (fun l => !(isDelimLine l))))

/-! ## Manifest scanner (`read_ec_data_from_xml`, src/build.rs lines 16-73) -/

/-- The scanner's mutable locals (src/build.rs lines 26-30). -/
structure ScanState where
  inside_certificate : Bool
  inside_private_key : Bool
  is_ecdsa : Bool
  certs : List String
  private_key : Option String
deriving DecidableEq, Repr

/-- Initial scanner state (all flags false, no captures). -/
def initState : ScanState :=
  { inside_certificate := false, inside_private_key := false, is_ecdsa := false
    certs := [], private_key := none }

/-- The `StartElement` arm (src/build.rs lines 34-48): a `Key` whose
attributes include `algorithm="ecdsa"` sets the flag (the attribute loop only
ever sets it to true); `Certificate` / `PrivateKey` enter capture mode only
while the flag is set. -/
def processStart (st : ScanState) (name : String) (attributes : List XmlAttr) : ScanState :=
  let st :=
    if name = "Key" ∧ attributes.any (fun a => a.name = "algorithm" ∧ a.value = "ecdsa")
    then { st with is_ecdsa := true } else st
  let st :=
    if name = "Certificate" ∧ st.is_ecdsa then { st with inside_certificate := true } else st
  let st :=
    if name = "PrivateKey" ∧ st.is_ecdsa then { st with inside_private_key := true } else st
  st

/-- The `EndElement` arm (src/build.rs lines 49-59): closing a `Key` clears
the ecdsa flag unconditionally; closing `Certificate` / `PrivateKey` leaves
capture mode. -/
def processEnd (st : ScanState) (name : String) : ScanState :=
  let st := if name = "Key" then { st with is_ecdsa := false } else st
  let st := if name = "Certificate" then { st with inside_certificate := false } else st
  let st := if name = "PrivateKey" then { st with inside_private_key := false } else st
  st

/-- The `Characters` arm (src/build.rs lines 60-67): each text event pushes
one new normalized entry onto `certs`, and/or overwrites `private_key`,
when the corresponding capture flag and the ecdsa flag are both set. -/
def processChars (st : ScanState) (text : String) : ScanState :=
  let st :=
    if st.inside_certificate ∧ st.is_ecdsa
    then { st with certs := st.certs ++ [clean_pem_data text] } else st
  let st :=
    if st.inside_private_key ∧ st.is_ecdsa
    then { st with private_key := some (clean_pem_data text) } else st
  st

/-- One iteration of the scanner's event loop (src/build.rs lines 32-70). -/
def processEvent (st : ScanState) : XmlEvent → ScanState
  | .startElement name attributes => processStart st name attributes
  | .endElement name => processEnd st name
  | .characters text => processChars st text
  | .other => st

/-- The scanner's event loop over the fallible event stream: the `event?`
in the source returns the first parser error, otherwise the loop folds
`processEvent` over the events and yields the captures. -/
def scanEvents (st : ScanState) : List (Except String XmlEvent) →
    Except String (List String × Option String)
  | [] => .ok (st.certs, st.private_key)
  | .error e :: _ => .error e
  | .ok ev :: rest => scanEvents (processEvent st ev) rest

/-- The manifest as the scanner sees it: either the file failed to open, or
it opened and the pull parser yields a stream of events, any of which may be
a parse error. -/
inductive FileInput where
  | missing
  | present (events : List (Except String XmlEvent))

/-- `read_ec_data_from_xml` (src/build.rs lines 16-73): a missing file is
not an error and yields no captures; otherwise the event loop runs. -/
def read_ec_data_from_xml : FileInput → Except String (List String × Option String)
  | .missing => .ok ([], none)
  | .present events => scanEvents initState events

/-! ## Binary decoder (`base64::decode`, used at src/build.rs lines 97 and 111) -/

/-- Rust `str::trim`: strip whitespace from both ends. -/
def rustTrim (s : String) : String :=
  String.mk (((s.toList.dropWhile Char.isWhitespace).reverse.dropWhile
      Char.isWhitespace).reverse)

/-- Value of one symbol of the standard base64 alphabet, `none` for any
other character. -/
def b64Val (c : Char) : Option Nat :=
  if 'A' ≤ c ∧ c ≤ 'Z' then some (c.toNat - 65)
  else if 'a' ≤ c ∧ c ≤ 'z' then some (c.toNat - 97 + 26)
  else if '0' ≤ c ∧ c ≤ '9' then some (c.toNat - 48 + 52)
  else if c = '+' then some 62
  else if c = '/' then some 63
  else none

/-- Reassemble 6-bit symbol values into bytes, four symbols to three bytes;
a final quantum of one symbol is an invalid length, and a final quantum of
two or three symbols must have zero discarded low bits. -/
def b64DecodeVals : List Nat → Option (List Nat)
  | [] => some []
  | [_] => none
  | [a, b] => if b % 16 = 0 then some [a * 4 + b / 16] else none
  | [a, b, c] => if c % 4 = 0 then some [a * 4 + b / 16, b % 16 * 16 + c / 4] else none
  | a :: b :: c :: d :: rest =>
      (b64DecodeVals rest).map
        (fun tail => (a * 4 + b / 16) :: (b % 16 * 16 + c / 4) :: (c % 4 * 64 + d) :: tail)

/-- The `base64::decode` entry point of the base64 crate: standard alphabet,
trailing `=` accepted as padding, any other occurrence of `=` or any
non-alphabet byte is an error. `Result` is modelled by `Option`. -/
def decode (s : String) : Option (List Nat) :=
  let body := ((s.toList.reverse.dropWhile (fun c => c = '=')).reverse)
  if body.any (fun c => c = '=') then none
  else match body.mapM b64Val with
    | none => none
    | some vals => b64DecodeVals vals

/-! ## Constant emitter (`write_rust_constants`, src/build.rs lines 75-121) -/

/-- Lowercase hexadecimal digit. -/
def hexDigitChar (n : Nat) : Char :=
  if n < 10 then Char.ofNat (48 + n) else Char.ofNat (87 + n)

/-- A byte in the two-hex-digit form of `0x{:02x}` (bytes here are < 256, so
two digits always suffice). -/
def hexByte (n : Nat) : String :=
  String.mk [hexDigitChar (n / 16 % 16), hexDigitChar (n % 16)]

/-- The inner `write_bytes` helper (src/build.rs lines 81-92): each byte is
rendered as `0x.., `, ten to a row, each row indented four spaces, with a
final newline from the closing `writeln!`. -/
def write_bytes (bytes : List Nat) : String :=
  String.join (bytes.enum.map (fun p =>
    (if p.1 % 10 = 0 then (if p.1 ≠ 0 then "\n" else "") ++ "    " else "")
      ++ "0x" ++ hexByte p.2 ++ ", ")) ++ "\n"

/-- The declaration head shared by every certificate slot; keeping it as one
function makes the slot bodies comparable. -/
def certDecl (i : Nat) (body : String) : String :=
  "pub const EC_CERTIFICATE_" ++ toString i ++ ": &[u8] = &[" ++ body

/-- One certificate slot of the emitter (src/build.rs lines 95-107): a
present entry that decodes is written byte by byte; a present entry that
fails to decode, or an absent entry, is written as an empty array.
`writeln!` supplies each trailing newline, so the `];\n` literal in the
source contributes `];\n\n`. -/
def certSlot (i : Nat) (entry : Option String) : String :=
  match entry with
  | some cert =>
    match decode (rustTrim cert) with
    | some decoded_cert => certDecl i ("\n" ++ write_bytes decoded_cert ++ "];\n\n")
    | none => certDecl i "];\n\n"
  | none => certDecl i "];\n\n"

/-- The private-key slot of the emitter (src/build.rs lines 109-118): a
present key that decodes is written byte by byte; an absent key is written
as an empty array; a present key that fails to decode falls through both
branches and nothing is written for this slot. -/
def privateKeySlot : Option String → String
  | some key =>
    (match decode (rustTrim key) with
     | some decoded_key =>
        "pub const EC_PRIVATE_KEY: &[u8] = &[\n" ++ write_bytes decoded_key ++ "];\n\n"
     | none => "")
  | none => "pub const EC_PRIVATE_KEY: &[u8] = &[];\n\n"

/-- `write_rust_constants` as a producer of the emitted text
(src/build.rs lines 75-121): header comment, the loop `for i in 1..=3`
unrolled over `certs.get(i - 1)`, then the private-key slot. -/
def write_rust_constants (certs : List String) (private_key : Option String) : String :=
  "// Auto-generated constants\n\n" ++
    certSlot 1 certs[0]? ++ certSlot 2 certs[1]? ++ certSlot 3 certs[2]? ++
    privateKeySlot private_key

/-! ## Orchestrator (`main`, src/build.rs lines 123-137) and file effects -/

/-- The effect of writing `text` from the start of a file previously holding
`old` through `OpenOptions::new().write(true).create(true)` — without
`truncate(true)`, bytes of the old content beyond the written length
survive. -/
def fileAfterWrite (old text : String) : String :=
  String.mk (text.toList ++ old.toList.drop text.toList.length)

/-- The process environment `main` touches: the `KEYBOX_PATH` variable, the
manifest the resolved path leads to, and the previous content of
`src/ec_constants.rs`. -/
structure Env where
  keybox_path : Option String
  manifest : FileInput
  old_artifact : String

/-- `main` (src/build.rs lines 123-137): a missing `KEYBOX_PATH` or a
scanner error propagates via `?` before `write_rust_constants` runs, leaving
the artifact untouched; otherwise the emitted text is written over the old
artifact. -/
def runMain (env : Env) : Except String Unit × String :=
  match env.keybox_path with
  | none => (.error "environment variable not found", env.old_artifact)
  | some _ =>
    match read_ec_data_from_xml env.manifest with
    | .error e => (.error e, env.old_artifact)
    | .ok (certs, private_key) =>
        (.ok (), fileAfterWrite env.old_artifact (write_rust_constants certs private_key))

/-! ## Spec-side notions used by the claims -/

/-- Spec-side notion for the algorithm-gating claim: the stack of open `Key`
elements, each recorded as whether it carried `algorithm="ecdsa"`, after a
prefix of the event stream. The head is the nearest enclosing `Key`. -/
def keyStackStep (stack : List Bool) : XmlEvent → List Bool
  | .startElement name attributes =>
      if name = "Key"
      then attributes.any (fun a => a.name = "algorithm" ∧ a.value = "ecdsa") :: stack
      else stack
  | .endElement name => if name = "Key" then stack.tail else stack
  | _ => stack

/-- The `Key` stack after a whole event list. -/
def keyStack (evs : List XmlEvent) : List Bool :=
  evs.foldl keyStackStep []

/-- Spec-side flatness assumption ("the manifest is assumed flat, one level
of nesting"): no prefix of the stream ever has two `Key` elements open. -/
def keysFlat (evs : List XmlEvent) : Bool :=
  (List.range (evs.length + 1)).all (fun i => (keyStack (evs.take i)).length ≤ 1)

/-- Whether `needle` occurs as a contiguous substring of `hay` (used to
state which constant names an emitted artifact declares). -/
def containsSub (hay needle : List Char) : Bool :=
  (List.range (hay.length + 1)).any (fun i => List.isPrefixOf needle (hay.drop i))

/-- The scanner state after an error-free event list. -/
def runScanner (evs : List XmlEvent) : ScanState :=
  evs.foldl processEvent initState

/-! ## Helper lemmas -/

theorem string_data_append (a b : String) : (a ++ b).data = a.data ++ b.data := rfl

theorem certDecl_inj (i : Nat) (a b : String) (h : certDecl i a = certDecl i b) : a = b := by
  have h' := congrArg String.data h
  simp only [certDecl, string_data_append] at h'
  exact String.ext (List.append_cancel_left h')

theorem processStart_is_ecdsa (st : ScanState) (name : String) (attributes : List XmlAttr) :
    (processStart st name attributes).is_ecdsa =
      (if name = "Key" ∧ attributes.any (fun a => a.name = "algorithm" ∧ a.value = "ecdsa")
       then true else st.is_ecdsa) := by
  simp only [processStart]
  split_ifs <;> rfl

theorem processStart_certs (st : ScanState) (name : String) (attributes : List XmlAttr) :
    (processStart st name attributes).certs = st.certs := by
  simp only [processStart]
  split_ifs <;> rfl

theorem processStart_private_key (st : ScanState) (name : String) (attributes : List XmlAttr) :
    (processStart st name attributes).private_key = st.private_key := by
  simp only [processStart]
  split_ifs <;> rfl

theorem processEnd_is_ecdsa (st : ScanState) (name : String) :
    (processEnd st name).is_ecdsa = (if name = "Key" then false else st.is_ecdsa) := by
  simp only [processEnd]
  split_ifs <;> rfl

theorem processEnd_certs (st : ScanState) (name : String) :
    (processEnd st name).certs = st.certs := by
  simp only [processEnd]
  split_ifs <;> rfl

theorem processEnd_private_key (st : ScanState) (name : String) :
    (processEnd st name).private_key = st.private_key := by
  simp only [processEnd]
  split_ifs <;> rfl

theorem processChars_is_ecdsa (st : ScanState) (text : String) :
    (processChars st text).is_ecdsa = st.is_ecdsa := by
  simp only [processChars]
  split_ifs <;> rfl

theorem processChars_of_not_ecdsa (st : ScanState) (text : String)
    (h : st.is_ecdsa = false) : processChars st text = st := by
  simp [processChars, h]

theorem scanEvents_map_ok (evs : List XmlEvent) :
    ∀ st : ScanState, scanEvents st (evs.map .ok) =
      .ok ((evs.foldl processEvent st).certs, (evs.foldl processEvent st).private_key) := by
  induction evs with
  | nil => intro st; rfl
  | cons ev evs ih => intro st; simpa [scanEvents] using ih (processEvent st ev)

theorem keyStack_append_single (evs : List XmlEvent) (ev : XmlEvent) :
    keyStack (evs ++ [ev]) = keyStackStep (keyStack evs) ev := by
  simp [keyStack, List.foldl_append]

theorem runScanner_append_single (evs : List XmlEvent) (ev : XmlEvent) :
    runScanner (evs ++ [ev]) = processEvent (runScanner evs) ev := by
  simp [runScanner, List.foldl_append]

theorem keysFlat_bound (evs : List XmlEvent) (h : keysFlat evs = true)
    (i : Nat) (hi : i ≤ evs.length) : (keyStack (evs.take i)).length ≤ 1 := by
  unfold keysFlat at h
  rw [List.all_eq_true] at h
  have := h i (by rw [List.mem_range]; omega)
  simpa using this

theorem mem_consHead {c : Char} {ls : List (List Char)} {l : List Char}
    (h : l ∈ consHead c ls) :
    (ls = [] ∧ l = [c]) ∨ ∃ t ts, ls = t :: ts ∧ (l = c :: t ∨ l ∈ ts) := by
  cases ls with
  | nil => simp [consHead] at h; exact Or.inl ⟨rfl, h⟩
  | cons t ts =>
    simp only [consHead, List.mem_cons] at h
    exact Or.inr ⟨t, ts, rfl, h⟩

theorem rustLinesChars_nil : rustLinesChars [] = [] := rfl

theorem rustLinesChars_newline (cs : List Char) :
    rustLinesChars ('\n' :: cs) = [] :: rustLinesChars cs := by
  rw [rustLinesChars.eq_def]
  rfl

theorem rustLinesChars_crlf (cs : List Char) :
    rustLinesChars ('\r' :: '\n' :: cs) = [] :: rustLinesChars cs := by
  rw [rustLinesChars.eq_def]
  rfl

theorem rustLinesChars_other (c : Char) (cs : List Char) (hc : ¬c = '\n')
    (hcr : c = '\r' → cs.head? ≠ some '\n') :
    rustLinesChars (c :: cs) = consHead c (rustLinesChars cs) := by
  rw [rustLinesChars.eq_def]
  by_cases hr : c = '\r'
  · simp only [if_neg hc, if_pos hr]
    split
    · exact absurd rfl (hcr hr)
    · rfl
  · simp [hc, hr]

theorem rustLinesChars_no_newline (cs₀ : List Char) :
    ∀ l ∈ rustLinesChars cs₀, '\n' ∉ l := by
  suffices H : ∀ (n : Nat) (cs : List Char), cs.length ≤ n →
      ∀ l ∈ rustLinesChars cs, '\n' ∉ l from H cs₀.length cs₀ le_rfl
  intro n
  induction n with
  | zero =>
    intro cs hlen
    have hnil : cs = [] := List.eq_nil_of_length_eq_zero (Nat.le_zero.mp hlen)
    subst hnil
    simp [rustLinesChars_nil]
  | succ n ih =>
    intro cs hlen l hl
    cases cs with
    | nil => simp [rustLinesChars_nil] at hl
    | cons c cs =>
      have hcs : cs.length ≤ n := by simp at hlen; omega
      by_cases hc : c = '\n'
      · subst hc
        rw [rustLinesChars_newline] at hl
        rcases List.mem_cons.mp hl with rfl | hl
        · simp
        · exact ih cs hcs l hl
      · by_cases hr : c = '\r' ∧ cs.head? = some '\n'
        · obtain ⟨hr1, hr2⟩ := hr
          subst hr1
          cases cs with
          | nil => simp at hr2
          | cons d cs₂ =>
            have hd : d = '\n' := by simpa using hr2
            subst hd
            rw [rustLinesChars_crlf] at hl
            rcases List.mem_cons.mp hl with rfl | hl
            · simp
            · have hcs₂ : cs₂.length ≤ n := by simp at hcs; omega
              exact ih cs₂ hcs₂ l hl
        · have hcr : c = '\r' → cs.head? ≠ some '\n' := fun h1 h2 => hr ⟨h1, h2⟩
          rw [rustLinesChars_other c cs hc hcr] at hl
          rcases mem_consHead hl with ⟨_, rfl⟩ | ⟨t, ts, hts, hmem⟩
          · intro hmem2
            simp at hmem2
            exact hc hmem2.symm
          · rcases hmem with rfl | hmem
            · have ht : '\n' ∉ t := ih cs hcs t (hts ▸ List.mem_cons_self t ts)
              intro hmem2
              rcases List.mem_cons.mp hmem2 with h | h
              · exact hc h.symm
              · exact ht h
            · exact ih cs hcs l (hts ▸ List.mem_cons_of_mem t hmem)

theorem rustLinesChars_of_no_newline (cs : List Char) :
    '\n' ∉ cs → cs ≠ [] → rustLinesChars cs = [cs] := by
  induction cs with
  | nil => intro _ h; exact absurd rfl h
  | cons c cs ih =>
    intro hnl _
    have hc : ¬c = '\n' := fun h => hnl (by simp [h])
    have hcs : '\n' ∉ cs := fun h => hnl (List.mem_cons_of_mem c h)
    have hcr : c = '\r' → cs.head? ≠ some '\n' := by
      intro _ hhd
      cases cs with
      | nil => simp at hhd
      | cons d cs₂ =>
        simp at hhd
        exact hcs (by simp [hhd])
    rw [rustLinesChars_other c cs hc hcr]
    cases cs with
    | nil => rfl
    | cons d cs₂ =>
      rw [ih hcs (by simp)]
      rfl

theorem runScanner_ecdsa_inv (evs : List XmlEvent) (hflat : keysFlat evs = true) :
    ∀ i, i ≤ evs.length →
      ((runScanner (evs.take i)).is_ecdsa = true → keyStack (evs.take i) = [true]) := by
  intro i
  induction i with
  | zero =>
    intro _ h
    simp [runScanner, initState] at h
  | succ n ih =>
    intro hle hecd
    have hn : n ≤ evs.length := by omega
    have hlt : n < evs.length := by omega
    have htake : evs.take (n + 1) = evs.take n ++ [evs[n]] := by
      rw [List.take_succ, List.getElem?_eq_getElem hlt]
      rfl
    have hflat1 : (keyStack (evs.take (n + 1))).length ≤ 1 :=
      keysFlat_bound evs hflat (n + 1) (by omega)
    rw [htake] at hecd hflat1 ⊢
    rw [runScanner_append_single] at hecd
    rw [keyStack_append_single] at hflat1 ⊢
    cases hev : evs[n] with
    | startElement name attrs =>
      rw [hev] at hecd hflat1
      rw [show processEvent (runScanner (evs.take n)) (.startElement name attrs) =
            processStart (runScanner (evs.take n)) name attrs from rfl,
          processStart_is_ecdsa] at hecd
      by_cases hk : name = "Key"
      · by_cases ha : attrs.any (fun a => a.name = "algorithm" ∧ a.value = "ecdsa") = true
        · simp only [keyStackStep, if_pos hk] at hflat1 ⊢
          have hnil : keyStack (evs.take n) = [] := by
            cases hstack : keyStack (evs.take n) with
            | nil => rfl
            | cons b bs => rw [hstack] at hflat1; simp at hflat1
          rw [hnil, ha]
        · rw [if_neg (fun hcontra => ha hcontra.2)] at hecd
          have hprev := ih hn hecd
          simp only [keyStackStep, if_pos hk] at hflat1
          rw [hprev] at hflat1
          simp at hflat1
      · rw [if_neg (by simp [hk])] at hecd
        have hprev := ih hn hecd
        simpa [keyStackStep, hk] using hprev
    | endElement name =>
      rw [hev] at hecd hflat1
      rw [show processEvent (runScanner (evs.take n)) (.endElement name) =
            processEnd (runScanner (evs.take n)) name from rfl,
          processEnd_is_ecdsa] at hecd
      by_cases hk : name = "Key"
      · rw [if_pos hk] at hecd
        exact absurd hecd (by simp)
      · rw [if_neg hk] at hecd
        have hprev := ih hn hecd
        simpa [keyStackStep, hk] using hprev
    | characters t =>
      rw [hev] at hecd hflat1
      rw [show processEvent (runScanner (evs.take n)) (.characters t) =
            processChars (runScanner (evs.take n)) t from rfl,
          processChars_is_ecdsa] at hecd
      simpa [keyStackStep] using ih hn hecd
    | other =>
      rw [hev] at hecd hflat1
      simpa [keyStackStep, processEvent] using ih hn hecd

/-! ## Claim theorems -/

/-- Claim C1: the claim says the artifact always defines all four constant
names, in particular that a present but undecodable private key still yields
an `EC_PRIVATE_KEY` declaration with an empty array. The code violates this:
with no certificates and a private key of `"!!!"` (whose base64 decode
fails), the emitted artifact contains no `EC_PRIVATE_KEY` declaration at
all, while the same run with no private key does declare it. -/
theorem claim1_private_key_decl_omitted :
    decode (rustTrim "!!!") = none ∧
    containsSub (write_rust_constants [] (some "!!!")).toList ("EC_PRIVATE_KEY".toList)
      = false ∧
    containsSub (write_rust_constants [] none).toList ("EC_PRIVATE_KEY".toList) = true := by
  refine ⟨rfl, by decide, by decide⟩

/-- Claim C4: the claim says the output file is fully overwritten, with no
byte of longer pre-existing content surviving. The code opens the file with
`write(true).create(true)` but not `truncate(true)`, so a run that emits
less text than the file previously held leaves the stale tail in place:
here the final file content still carries the `LEFTOVER` suffix and differs
from the freshly emitted text. -/
theorem claim4_stale_bytes_survive :
    runMain ⟨some "/vendor", .missing,
        write_rust_constants [] none ++ "pub const LEFTOVER: u8 = 0;\n"⟩ =
      (.ok (), write_rust_constants [] none ++ "pub const LEFTOVER: u8 = 0;\n") ∧
    write_rust_constants [] none ++ "pub const LEFTOVER: u8 = 0;\n" ≠
      write_rust_constants [] none := by
  refine ⟨rfl, by decide⟩

/-- Claim C5: only the first three certificate entries, in document
(encounter) order, populate `EC_CERTIFICATE_1`, `EC_CERTIFICATE_2` and
`EC_CERTIFICATE_3` respectively, and entries beyond the third never affect
the artifact: the emission depends only on `certs.take 3`, with slot `i`
rendered from entry `i - 1`. -/
theorem claim5_only_first_three_certs (certs : List String) (private_key : Option String) :
    write_rust_constants certs private_key =
      "// Auto-generated constants\n\n" ++ certSlot 1 certs[0]? ++ certSlot 2 certs[1]? ++
        certSlot 3 certs[2]? ++ privateKeySlot private_key ∧
    write_rust_constants certs private_key =
      write_rust_constants (certs.take 3) private_key := by
  constructor
  · rcases certs with _ | ⟨a, _ | ⟨b, _ | ⟨c, rest⟩⟩⟩ <;> rfl
  · rcases certs with _ | ⟨a, _ | ⟨b, _ | ⟨c, rest⟩⟩⟩ <;> simp [write_rust_constants]

/-- Claim C7: a manifest file that cannot be opened is not an error —
`read_ec_data_from_xml` returns an empty certificate list and no private
key — and the resulting artifact defines all four constants as empty
arrays. -/
theorem claim7_missing_file_empty_constants :
    read_ec_data_from_xml .missing = .ok ([], none) ∧
    write_rust_constants [] none =
      "// Auto-generated constants\n\n" ++
      "pub const EC_CERTIFICATE_1: &[u8] = &[];\n\n" ++
      "pub const EC_CERTIFICATE_2: &[u8] = &[];\n\n" ++
      "pub const EC_CERTIFICATE_3: &[u8] = &[];\n\n" ++
      "pub const EC_PRIVATE_KEY: &[u8] = &[];\n\n" := by
  refine ⟨rfl, by decide⟩

/-- Claim C6: base64 decoding is fail-soft per certificate slot — a slot
whose trimmed text fails to decode is emitted as an empty array, a slot that
decodes is emitted with its decoded bytes, and the artifact is the
independent concatenation of the header, the three slots and the
private-key slot, so one bad slot never aborts or disturbs the others. -/
theorem claim6_fail_soft_decoding :
    (∀ (i : Nat) (c : String), decode (rustTrim c) = none →
      certSlot i (some c) = certDecl i "];\n\n") ∧
    (∀ (i : Nat) (c : String) (bs : List Nat), decode (rustTrim c) = some bs →
      certSlot i (some c) = certDecl i ("\n" ++ write_bytes bs ++ "];\n\n")) ∧
    (∀ (certs : List String) (pk : Option String),
      write_rust_constants certs pk =
        "// Auto-generated constants\n\n" ++ certSlot 1 certs[0]? ++ certSlot 2 certs[1]? ++
          certSlot 3 certs[2]? ++ privateKeySlot pk) := by
  refine ⟨?_, ?_, fun _ _ => rfl⟩
  · intro i c h
    simp [certSlot, h]
  · intro i c bs h
    simp [certSlot, h]

/-- Witness for C6: the undecodable entry `"!!!"` in slot 2 is emitted as an
empty array while the valid entry `"AAEC"` in slot 1 is emitted with its
decoded bytes. -/
theorem claim6_fail_soft_decoding_witness :
    certSlot 2 (some "!!!") = certDecl 2 "];\n\n" ∧
    certSlot 1 (some "AAEC") = certDecl 1 ("\n" ++ write_bytes [0, 1, 2] ++ "];\n\n") :=
  ⟨claim6_fail_soft_decoding.1 2 "!!!" (by decide),
   claim6_fail_soft_decoding.2.1 1 "AAEC" [0, 1, 2] (by decide)⟩

/-- Claim C10: a captured entry whose normalized text trims to the empty
string decodes successfully to zero bytes, and the emitter renders that
slot in the multi-line form (`&[`, a blank body line from `write_bytes [])`,
then `];`), which differs textually from the single-line `&[];` form used
for absent or undecodable slots. -/
theorem claim10_empty_entry_multiline_form (i : Nat) (c k : String)
    (hc : rustTrim c = "") (hk : rustTrim k = "") :
    decode (rustTrim c) = some [] ∧
    certSlot i (some c) = certDecl i ("\n" ++ write_bytes [] ++ "];\n\n") ∧
    certSlot i (some c) = certDecl i "\n\n];\n\n" ∧
    certSlot i (some c) ≠ certDecl i "];\n\n" ∧
    privateKeySlot (some k) = "pub const EC_PRIVATE_KEY: &[u8] = &[\n\n];\n\n" := by
  have hdec : decode (rustTrim c) = some [] := by rw [hc]; rfl
  have hslot : certSlot i (some c) = certDecl i ("\n" ++ write_bytes [] ++ "];\n\n") := by
    simp [certSlot, hdec]
  have hslot2 : certSlot i (some c) = certDecl i "\n\n];\n\n" := by
    rw [hslot]
    exact congrArg (certDecl i) (by decide)
  refine ⟨hdec, hslot, hslot2, ?_, ?_⟩
  · rw [hslot2]
    intro h
    exact absurd (certDecl_inj i _ _ h) (by decide)
  · have hkdec : decode (rustTrim k) = some [] := by rw [hk]; rfl
    simp only [privateKeySlot, hkdec]
    decide

/-- Witness for C10: the all-whitespace entry `"  "` in slot 1 and the
private-key text `"\n"` are both rendered in the multi-line empty form. -/
theorem claim10_empty_entry_multiline_form_witness :
    certSlot 1 (some "  ") = certDecl 1 "\n\n];\n\n" ∧
    privateKeySlot (some "\n") = "pub const EC_PRIVATE_KEY: &[u8] = &[\n\n];\n\n" :=
  ⟨(claim10_empty_entry_multiline_form 1 "  " "\n" (by decide) (by decide)).2.2.1,
   (claim10_empty_entry_multiline_form 1 "  " "\n" (by decide) (by decide)).2.2.2.2⟩

/-- Claim C8: a parse error in the event stream makes
`read_ec_data_from_xml` return that error (the loop stops at the first
error regardless of what precedes or follows), `main` propagates it as a
fatal outcome, and the emitter never runs, so the output artifact keeps its
prior content. -/
theorem claim8_parse_error_aborts :
    (∀ (st : ScanState) (pre : List XmlEvent) (e : String)
        (rest : List (Except String XmlEvent)),
      scanEvents st (pre.map .ok ++ .error e :: rest) = .error e) ∧
    (∀ (p old : String) (evs : List (Except String XmlEvent)) (e : String),
      scanEvents initState evs = .error e →
      runMain ⟨some p, .present evs, old⟩ = (.error e, old)) := by
  constructor
  · intro st pre e rest
    induction pre generalizing st with
    | nil => rfl
    | cons ev pre ih => exact ih (processEvent st ev)
  · intro p old evs e h
    simp [runMain, read_ec_data_from_xml, h]

/-- Witness for C8: a stream whose first event is already a parse error
aborts the run with that error and leaves the old artifact untouched. -/
theorem claim8_parse_error_aborts_witness :
    runMain ⟨some "p", .present [.error "malformed"], "OLD"⟩ = (.error "malformed", "OLD") :=
  claim8_parse_error_aborts.2 "p" "OLD" [.error "malformed"] "malformed" rfl

/-- Claim C3 fails on the code: the claim says one EC-gated `Certificate`
element yields exactly one entry holding the concatenation of all its text
events, but the scanner pushes a separate entry per text event — a
`Certificate` with the two text events `"AA"` and `"BB"` yields the two
entries `["AA", "BB"]`, not the single entry `["AABB"]`. -/
theorem claim3_single_entry_counterexample :
    read_ec_data_from_xml (.present (([XmlEvent.startElement "Key" [⟨"algorithm", "ecdsa"⟩],
        .startElement "Certificate" [], .characters "AA", .characters "BB",
        .endElement "Certificate", .endElement "Key"]).map .ok)) =
      .ok (["AA", "BB"], none) ∧
    (["AA", "BB"] : List String) ≠ ["AABB"] := by
  exact ⟨rfl, by decide⟩

/-- Claim C3 amended: each text event inside an EC-gated `Certificate`
pushes exactly one new entry holding that event's normalized text onto the
end of the list; opening an element never creates an entry, and a text
event outside an EC-gated capture changes nothing. -/
theorem claim3_entry_per_text_event (st : ScanState) (t name : String)
    (attrs : List XmlAttr) :
    (st.inside_certificate = true → st.is_ecdsa = true →
      (processEvent st (.characters t)).certs = st.certs ++ [clean_pem_data t]) ∧
    (processEvent st (.startElement name attrs)).certs = st.certs ∧
    (st.inside_certificate = false ∨ st.is_ecdsa = false →
      (processEvent st (.characters t)).certs = st.certs) := by
  refine ⟨?_, processStart_certs st name attrs, ?_⟩
  · intro h1 h2
    simp [processEvent, processChars, h1, h2]
    split <;> rfl
  · rintro (h | h) <;> (simp [processEvent, processChars, h]; try (split <;> rfl))

/-- Witness for the amended C3: in a capturing EC state with one previous
entry, the text event `"AA"` appends the new entry `"AA"`. -/
theorem claim3_entry_per_text_event_witness :
    (processEvent ⟨true, false, true, ["X"], none⟩ (.characters "AA")).certs = ["X", "AA"] :=
  ((claim3_entry_per_text_event ⟨true, false, true, ["X"], none⟩ "AA" "n" []).1 rfl rfl).trans
    (by decide)

/-- A well-formed event stream with a non-EC `Key` nested inside an EC
`Key`; the text event at index 3 sits in a `Certificate` whose nearest
enclosing `Key` has no `algorithm` attribute. -/
def nestedKeyStream : List XmlEvent :=
  [.startElement "Key" [⟨"algorithm", "ecdsa"⟩], .startElement "Key" [],
   .startElement "Certificate" [], .characters "AA", .endElement "Certificate",
   .endElement "Key", .endElement "Key"]

/-- Claim C2 fails on the code: the claim says a `Certificate` text block
whose enclosing `Key` lacks the `algorithm="ecdsa"` attribute is never
included, but when a non-EC `Key` is nested inside an EC `Key` the ecdsa
flag is not cleared on entering the inner `Key` — the text at index 3,
whose nearest enclosing `Key` carries no attribute (its stack entry is
`false`), is nevertheless captured into the certificate list. -/
theorem claim2_gating_counterexample :
    nestedKeyStream[3]? = some (.characters "AA") ∧
    (keyStack (nestedKeyStream.take 3)).head? = some false ∧
    read_ec_data_from_xml (.present (nestedKeyStream.map .ok)) = .ok (["AA"], none) := by
  refine ⟨rfl, by decide, rfl⟩

/-- Claim C2 amended: under the spec's flat-manifest assumption (no `Key`
element ever opens while another `Key` is open), a text event whose nearest
enclosing `Key` lacks the EC marker is never captured — processing it
changes neither the certificate list nor the private-key slot. -/
theorem claim2_gating_flat_keys (evs : List XmlEvent) (i : Nat) (t : String)
    (hflat : keysFlat evs = true)
    (hev : evs[i]? = some (.characters t))
    (hkey : (keyStack (evs.take i)).head? = some false) :
    (runScanner (evs.take (i + 1))).certs = (runScanner (evs.take i)).certs ∧
    (runScanner (evs.take (i + 1))).private_key = (runScanner (evs.take i)).private_key := by
  have hlt : i < evs.length := by
    rcases Nat.lt_or_ge i evs.length with h | h
    · exact h
    · rw [List.getElem?_eq_none h] at hev
      cases hev
  have htake : evs.take (i + 1) = evs.take i ++ [evs[i]] := by
    rw [List.take_succ, List.getElem?_eq_getElem hlt]
    rfl
  have hevi : evs[i] = .characters t :=
    Option.some.inj ((List.getElem?_eq_getElem hlt).symm.trans hev)
  have hecd : (runScanner (evs.take i)).is_ecdsa = false := by
    cases hb : (runScanner (evs.take i)).is_ecdsa with
    | false => rfl
    | true =>
      have hstack := runScanner_ecdsa_inv evs hflat i (by omega) hb
      rw [hstack] at hkey
      simp at hkey
  rw [htake, runScanner_append_single, hevi]
  rw [show processEvent (runScanner (evs.take i)) (.characters t) =
        processChars (runScanner (evs.take i)) t from rfl]
  rw [processChars_of_not_ecdsa _ _ hecd]
  exact ⟨rfl, rfl⟩

/-- A flat stream whose only `Key` is non-EC, with a text event at index 2
inside its `Certificate`. -/
def flatKeyStream : List XmlEvent :=
  [.startElement "Key" [], .startElement "Certificate" [], .characters "AA",
   .endElement "Certificate", .endElement "Key"]

/-- Witness for the amended C2: in the flat stream with a single non-EC
`Key`, processing the text event at index 2 leaves both captures
unchanged. -/
theorem claim2_gating_flat_keys_witness :
    (runScanner (flatKeyStream.take 3)).certs = (runScanner (flatKeyStream.take 2)).certs ∧
    (runScanner (flatKeyStream.take 3)).private_key =
      (runScanner (flatKeyStream.take 2)).private_key :=
  claim2_gating_flat_keys flatKeyStream 2 "AA" (by decide) (by decide) (by decide)

/-- Claim C9 fails on the code in its idempotence part: on the input
`"---\n--BEGIN"`, no line starts with a delimiter prefix, so normalization
concatenates the two lines — but the concatenation itself starts with the
begin delimiter, so a second application of `clean_pem_data` discards it
entirely instead of changing nothing. -/
theorem claim9_idempotence_counterexample :
    (rustLinesChars ("---\n--BEGIN".toList)).all (fun l => !(isDelimLine l)) = true ∧
    clean_pem_data "---\n--BEGIN" = "-----BEGIN" ∧
    clean_pem_data (clean_pem_data "---\n--BEGIN") ≠ clean_pem_data "---\n--BEGIN" := by
  refine ⟨by decide, by decide, by decide⟩

/-- Claim C9 amended: `clean_pem_data` is a pure total function returning
the separator-free concatenation, in order, of the lines not starting with
a delimiter prefix; if no line is delimiter-prefixed the result is the
plain concatenation of all lines; and reapplying it to such a result
changes nothing provided the concatenation does not itself start with a
delimiter prefix. -/
theorem claim9_clean_pem_normalization (s : String) :
    clean_pem_data s =
      String.mk (List.flatten ((rustLinesChars s.toList).filter (fun l => !(isDelimLine l)))) ∧
    ((∀ l ∈ rustLinesChars s.toList, isDelimLine l = false) →
      clean_pem_data s = String.mk (List.flatten (rustLinesChars s.toList))) ∧
    ((∀ l ∈ rustLinesChars s.toList, isDelimLine l = false) →
      isDelimLine (clean_pem_data s).toList = false →
      clean_pem_data (clean_pem_data s) = clean_pem_data s) := by
  have hfil : (∀ l ∈ rustLinesChars s.toList, isDelimLine l = false) →
      (rustLinesChars s.toList).filter (fun l => !(isDelimLine l)) = rustLinesChars s.toList :=
    fun hall => List.filter_eq_self.mpr (fun l hl => by simp [hall l hl])
  refine ⟨rfl, ?_, ?_⟩
  · intro hall
    unfold clean_pem_data
    rw [hfil hall]
  · intro hall hnd
    have hclean : clean_pem_data s = String.mk (List.flatten (rustLinesChars s.toList)) := by
      unfold clean_pem_data
      rw [hfil hall]
    have hnonl : '\n' ∉ List.flatten (rustLinesChars s.toList) := by
      intro hmem
      rw [List.mem_flatten] at hmem
      obtain ⟨l, hl, hml⟩ := hmem
      exact rustLinesChars_no_newline _ l hl hml
    rcases hte : List.flatten (rustLinesChars s.toList) with _ | ⟨c, cs⟩
    · rw [hclean, hte]
      rfl
    · have hnd' : isDelimLine (c :: cs) = false := by
        rw [hclean, hte] at hnd
        exact hnd
      rw [hte] at hnonl
      rw [hclean, hte]
      unfold clean_pem_data
      rw [show (String.mk (c :: cs)).toList = c :: cs from rfl]
      rw [rustLinesChars_of_no_newline (c :: cs) hnonl (by simp)]
      simp [hnd']

/-- Witness for the amended C9: a delimiter-free two-line input is
normalized to the plain concatenation of its lines, and renormalizing that
result changes nothing. -/
theorem claim9_clean_pem_normalization_witness :
    clean_pem_data "QUJD\nREVG" = "QUJDREVG" ∧
    clean_pem_data (clean_pem_data "QUJD\nREVG") = clean_pem_data "QUJD\nREVG" :=
  ⟨((claim9_clean_pem_normalization "QUJD\nREVG").2.1 (by decide)).trans (by decide),
   (claim9_clean_pem_normalization "QUJD\nREVG").2.2 (by decide) (by decide)⟩

end KeyboxParser
